/-
Verification of the data-lander Extraction & Transform Core.

Shallow embedding of the Rust sources in src/data-lander/src/
(unzipper.rs, platform_collector.rs, converter_uploader.rs) and proofs
of the specified properties.
-/
import Mathlib

namespace DataLander

/-! ## Character classes for platform-name sanitization

`platform_collector.rs` compiles the regex `[^a-zA-Z0-9\-_]` and replaces
every character matching it (i.e. every character NOT in the class
`a-z A-Z 0-9 - _`) with `'-'`. -/

/-- Characters kept (not replaced) by the sanitization regex
`[^a-zA-Z0-9\-_]` of `PlatformDataCollector::new`: ASCII letters
(codepoints 97-122 and 65-90), digits (48-57), hyphen (45) and
underscore (95). -/
def keptByRegex (c : Char) : Bool :=
  (97 ≤ c.toNat && c.toNat ≤ 122) || (65 ≤ c.toNat && c.toNat ≤ 90)
    || (48 ≤ c.toNat && c.toNat ≤ 57) || c.toNat = 45 || c.toNat = 95

/-- Characters that can appear in a sanitized output besides `'-'`:
lowercase letters, digits and underscore. -/
def lowKept (c : Char) : Bool :=
  (97 ≤ c.toNat && c.toNat ≤ 122) || (48 ≤ c.toNat && c.toNat ≤ 57)
    || c.toNat = 95

/-! ## sanitize_platform_name (platform_collector.rs, lines 141-162)

The Rust code does, in order:
1. `platform_name.to_lowercase()` — modelled characterwise with
   `Char.toLower` (ASCII).  Rust's Unicode lowercasing agrees with this on
   every character of the regex's keep-class `[a-zA-Z0-9\-_]`; characters
   outside that class are replaced by `'-'` in the next step either way.
2. `regex.replace_all(_, "-")` with regex `[^a-zA-Z0-9\-_]`.
3. `.trim_matches('-')` — strip leading and trailing hyphens.
4. `.split('-').filter(|s| !s.is_empty()).collect::<Vec<_>>().join("-")`.
5. if the result is empty, return `"unknown"`.
We work on `List Char` and wrap into `String` at the end. -/

/-- Step 1: characterwise lowercasing (`to_lowercase`). -/
def lowerChars (cs : List Char) : List Char := cs.map Char.toLower

/-- Step 2: `replace_all` of the regex `[^a-zA-Z0-9\-_]` by `"-"`. -/
def replaceBad (cs : List Char) : List Char :=
  cs.map (fun c => if keptByRegex c then c else '-')

/-- Step 3: `trim_matches('-')`. -/
def trimDash (cs : List Char) : List Char :=
  ((cs.dropWhile (· = '-')).reverse.dropWhile (· = '-')).reverse

/-- Step 4's `split('-')`. -/
def splitDash (cs : List Char) : List (List Char) := cs.splitOn '-'

/-- Step 4's `join("-")`. -/
def joinDash : List (List Char) → List Char
  | [] => []
  | [p] => p
  | p :: q :: rest => p ++ '-' :: joinDash (q :: rest)

/-- Steps 1 and 2 fused to a single character map: lowercase, then
replace everything outside the regex's keep-class with `'-'`. -/
def gChar (c : Char) : Char :=
  if keptByRegex c.toLower then c.toLower else '-'

/-- The sanitization pipeline on character lists. -/
def sanitizeL (cs : List Char) : List Char :=
  let cleaned := joinDash (((splitDash (trimDash (replaceBad (lowerChars cs))))).filter (· ≠ []))
  if cleaned = [] then "unknown".toList else cleaned

/-- `PlatformDataCollector::sanitize_platform_name`. -/
def sanitize_platform_name (s : String) : String := String.mk (sanitizeL s.toList)

/-- The regular expression `^[a-z0-9-]+$` of the specification (§8):
non-empty, and every character a lowercase letter, digit or hyphen.
This is a spec-side definition, used to compare the code's output shape
against the spec's words. -/
def matchesSpecRegex (s : String) : Bool :=
  !s.toList.isEmpty &&
    s.toList.all (fun c =>
      (97 ≤ c.toNat && c.toNat ≤ 122) || (48 ≤ c.toNat && c.toNat ≤ 57)
        || c.toNat = 45)

/-! ## File-system paths (for unzipper.rs)

`streamed_unzip` builds each output path as `extract_to.join(entry_name)`.
We model a path as an absolute/relative flag plus a list of components.
Rust `Path::join` appends a relative argument's components and *replaces*
the whole path when the argument is absolute. -/

/-- A file-system path: `absolute` flag plus components (components may be
`".."` or ordinary names). -/
structure FsPath where
  absolute : Bool
  components : List String
deriving DecidableEq, Repr

/-- Does `s` end with `suf`? (`str::ends_with`, executable model of
`String.endsWith`.) -/
def strEndsWith (s suf : String) : Bool := List.isSuffixOf suf.toList s.toList

/-- Does `s` start with `pre`? (`str::starts_with` / `Path::is_absolute`
test, executable model of `String.startsWith`.) -/
def strStartsWith (s p : String) : Bool := List.isPrefixOf p.toList s.toList

/-- Decompose a zip entry name into path components (separator `'/'`);
empty components (from duplicate or trailing slashes) disappear, as they
do in Rust `Path` component iteration. -/
def entryComponents (name : String) : List String :=
  ((name.toList.splitOnP (· == '/')).map String.mk).filter (· ≠ "")

/-- Rust `Path::join (base, name)`: if `name` is absolute it replaces
`base`, otherwise its components are appended. -/
def pathJoin (base : FsPath) (name : String) : FsPath :=
  if strStartsWith name "/" then ⟨true, entryComponents name⟩
  else ⟨base.absolute, base.components ++ entryComponents name⟩

/-- Rust `PathBuf::with_extension("")`: drop the final component's
extension (everything from the last `'.'` of the file name, when the stem
is nonempty). Used for the nested-extraction directory. -/
def lastDotIdx (cs : List Char) : Option Nat :=
  match cs.reverse.indexOf? '.' with
  | none => none
  | some j => some (cs.length - 1 - j)

/-- Rust `Path::file_stem` on a single file-name component: the whole name
when it has no `'.'` or only a leading one, otherwise the part before the
final `'.'`. -/
def file_stem (name : String) : String :=
  match lastDotIdx name.toList with
  | none => name
  | some 0 => name
  | some i => String.mk (name.toList.take i)

/-- `with_extension("")` on a path: replace the last component by its stem. -/
def withExtensionEmpty (p : FsPath) : FsPath :=
  match p.components.getLast? with
  | none => p
  | some name => ⟨p.absolute, p.components.dropLast ++ [file_stem name]⟩

/-- Normalize path components: `".."` pops the previous component (and is
dropped at the top), `"."` disappears. Used to decide whether a
materialized path lies outside the destination directory. -/
def normalizeComponents (cs : List String) : List String :=
  cs.foldl
    (fun acc c =>
      if c = ".." then acc.dropLast else if c = "." then acc else acc ++ [c])
    []

/-- Spec-side predicate (§4.1): the path `p` escapes the destination
directory `dest` if it is absolute while `dest` is not (or vice versa), or
its normalized components do not extend `dest`'s. -/
def escapesDest (dest p : FsPath) : Bool :=
  (p.absolute != dest.absolute) ||
    !(List.isPrefixOf (normalizeComponents dest.components)
        (normalizeComponents p.components))

/-! ## streamed_unzip (unzipper.rs, lines 8-53)

The function walks the archive entries in order; a name ending in `'/'`
is a directory (created, skipped), every other entry is materialized at
`extract_to.join(name)` and recorded; if the (lowercased) name ends in
`".zip"` the just-written bytes are re-opened as an archive and extracted
recursively into the path with its extension stripped.

Archive bytes are abstract (`List Nat`); `parse` stands for
`ZipArchive::new` + entry enumeration, returning `none` when the bytes are
not a valid archive (in the code this makes the whole call return `Err`
via `?`).  The Rust recursion carries no depth or size bound; the `fuel`
argument is an artifact of the embedding — `outOfFuel` for every fuel
value means the Rust recursion does not terminate. -/

/-- One archive entry: declared name and raw bytes. -/
structure ZipEntry where
  name : String
  content : List Nat
deriving DecidableEq, Repr

/-- Result of an extraction: the Rust `Result` plus the embedding-only
out-of-fuel marker. -/
inductive UnzipResult where
  | outOfFuel : UnzipResult
  | errored : UnzipResult
  | ok (files : List FsPath) : UnzipResult
deriving DecidableEq, Repr

/-- Rust `str::to_lowercase` of an entry name, characterwise (ASCII);
agrees with Rust on the `".zip"` suffix test. -/
def lowerName (s : String) : String := String.mk (s.toList.map Char.toLower)

/-- The `for i in 0..archive.len()` loop of `streamed_unzip`; `next` is
the recursive call used for a nested archive. -/
def processEntries (parse : List Nat → Option (List ZipEntry))
    (next : List ZipEntry → FsPath → UnzipResult) :
    List ZipEntry → FsPath → UnzipResult
  | [], _ => .ok []
  | e :: rest, dest =>
    if strEndsWith e.name "/" then
      processEntries parse next rest dest
    else
      let outpath := pathJoin dest e.name
      if strEndsWith (lowerName e.name) ".zip" then
        match parse e.content with
        | none => .errored
        | some inner =>
          match next inner (withExtensionEmpty outpath) with
          | .ok innerFiles =>
            match processEntries parse next rest dest with
            | .ok restFiles => .ok (outpath :: innerFiles ++ restFiles)
            | r => r
          | r => r
      else
        match processEntries parse next rest dest with
        | .ok restFiles => .ok (outpath :: restFiles)
        | r => r

/-- The recursion of `streamed_unzip`, stratified by nesting depth: the
Rust code recurses with no bound, so running out of `fuel` at a nested
archive marks (only) the embedding's depth cut-off. -/
def unzipGo (parse : List Nat → Option (List ZipEntry)) :
    Nat → List ZipEntry → FsPath → UnzipResult
  | 0 => processEntries parse (fun _ _ => .outOfFuel)
  | fuel + 1 => processEntries parse (unzipGo parse fuel)

/-- `streamed_unzip`: extract the archive `entries` of the given zip file
into `extract_to`. -/
def streamed_unzip (parse : List Nat → Option (List ZipEntry)) (fuel : Nat)
    (entries : List ZipEntry) (extract_to : FsPath) : UnzipResult :=
  unzipGo parse fuel entries extract_to

/-- A parse oracle for archives with no nested archives: any attempt to
reopen extracted bytes as an archive fails. -/
def noZipParse : List Nat → Option (List ZipEntry) := fun _ => none

/-- A self-referential archive oracle: bytes `b` always parse as an
archive with the single entry `"self.zip"` whose content is `b` itself —
the abstract form of a zip quine (an archive containing itself). -/
def quineParse : List Nat → Option (List ZipEntry) :=
  fun b => some [⟨"self.zip", b⟩]

/-! ## Tabular data model (converter_uploader.rs / platform_collector.rs)

A polars `DataFrame` parsed from CSV: ordered column names and rows; each
cell is `Option String` (`none` = null).  Column dtypes beyond strings are
not needed by any claim; the schema is the ordered column-name list. -/

/-- A row: one `Option String` cell per column. -/
abbrev Row := List (Option String)

/-- An in-memory table. -/
structure DataFrame where
  columns : List String
  rows : List Row
deriving DecidableEq, Repr

/-- Value of column `c` in row `r` under schema `cols` (`none` when the
column is absent or the cell is null). -/
def getValue (cols : List String) (r : Row) (c : String) : Option String :=
  match cols.indexOf? c with
  | none => none
  | some i => (r.get? i).bind id

/-- The fixed category column name. -/
def platformCol : String := "platform_name"

/-- Errors of `CsvProcessingError` distinguished by the embedding. -/
inductive CsvProcessingError where
  | polarsError : CsvProcessingError
  | invalidPath (msg : String) : CsvProcessingError
  | emptyDataFrame (msg : String) : CsvProcessingError
deriving DecidableEq, Repr

/-- Does a row survive `col("platform_name").is_in(allowed, false)`?
A null or missing category value yields a null mask entry, which the
filter drops. -/
def rowAllowed (cols : List String) (allowed : List String) (r : Row) : Bool :=
  match getValue cols r platformCol with
  | some v => allowed.contains v
  | none => false

/-- The lazy `filter(col("platform_name").is_in(...))` + `collect()` step:
errors (as polars does) when the column is missing, otherwise keeps the
surviving rows in source order. -/
def filterByPlatform (df : DataFrame) (allowed : List String) :
    Except CsvProcessingError DataFrame :=
  if df.columns.contains platformCol then
    .ok ⟨df.columns, df.rows.filter (rowAllowed df.columns allowed)⟩
  else
    .error .polarsError

/-- Parquet encoding, modelled as the table it encodes (`ParquetWriter`
serializes the frame; no claim inspects the bytes). -/
def encodeParquet (df : DataFrame) : DataFrame := df

/-- `process_csv_to_parquet_bytes` (converter_uploader.rs, lines 59-105)
on an already-parsed table: filter by the allow-list; `none` when no rows
survive; otherwise the parquet buffer and the row count (taken before
encoding). -/
def process_csv_to_parquet_bytes (df : DataFrame) (allowed : List String) :
    Except CsvProcessingError (Option (DataFrame × Nat)) :=
  match filterByPlatform df allowed with
  | .error e => .error e
  | .ok fdf =>
    if fdf.rows.length = 0 then .ok none
    else .ok (some (encodeParquet fdf, fdf.rows.length))

/-- Errors of `UploadError`. -/
inductive UploadError where
  | csvProcessing (e : CsvProcessingError) : UploadError
  | invalidFilePath : UploadError
deriving DecidableEq, Repr

/-- One `put_object` call made against the storage collaborator. -/
structure PutCall where
  bucket : String
  key : String
  body : DataFrame
deriving DecidableEq, Repr

/-- The literal allow-list of `convert_filter_and_upload_direct`. -/
def ALLOWED_VLOPS : List String :=
  ["Facebook", "Discord Netherlands B.V.", "Google Maps", "Instagram",
   "Kleinanzeigen", "Leboncoin", "LinkedIn", "Reddit", "Telegram",
   "TikTok", "X"]

/-- `Path::file_stem` of the input path, `none` when the path has no file
name; the embedding receives the path's final component as `fileName`. -/
def fileStemOpt (fileName : String) : Option String :=
  if fileName = "" then none else some (file_stem fileName)

/-- `convert_filter_and_upload_direct` (converter_uploader.rs, lines
146-265): process the file, return `Ok(None)` with no upload when nothing
survives, otherwise upload to `format!("{}{}.parquet", prefix, file_name)`
and return the row count.  The S3 transport itself is external; the
returned list records the `put_object` calls issued. -/
def convert_filter_and_upload_direct (df : DataFrame) (fileName : String)
    (bucket pfx : String) : Except UploadError (Option Nat) × List PutCall :=
  match process_csv_to_parquet_bytes df ALLOWED_VLOPS with
  | .error e => (.error (.csvProcessing e), [])
  | .ok none => (.ok none, [])
  | .ok (some (buffer, rowCount)) =>
    match fileStemOpt fileName with
    | none => (.error .invalidFilePath, [])
    | some stem =>
      let s3_key := pfx ++ stem ++ ".parquet"
      (.ok (some rowCount), [⟨bucket, s3_key, buffer⟩])

/-- Spec-side destination key (§6): caller-supplied prefix, then the
*sanitized* name, then the columnar-format suffix. -/
def specDestinationKey (pfx stem : String) : String :=
  pfx ++ sanitize_platform_name stem ++ ".parquet"

/-! ## PlatformDataCollector (platform_collector.rs)

The accumulator `platform_data : HashMap<String, Vec<DataFrame>>` is
modelled as an association list (key order is irrelevant to every claim);
`entry(k).or_insert_with(Vec::new).push(df)` appends to the existing
entry or creates a fresh one. -/

/-- The collector state. -/
structure PlatformDataCollector where
  platform_data : List (String × List DataFrame)
  allowed_platforms : List String
deriving DecidableEq, Repr

/-- `PlatformDataCollector::new`. -/
def PlatformDataCollector.new (allowed : List String) : PlatformDataCollector :=
  ⟨[], allowed⟩

/-- Lookup of a key in the accumulator. -/
def lookupEntry (pd : List (String × List DataFrame)) (k : String) :
    Option (List DataFrame) :=
  match pd with
  | [] => none
  | (k', v) :: t => if k' = k then some v else lookupEntry t k

/-- `platform_data.entry(k).or_insert_with(Vec::new).push(df)`. -/
def pushEntry (pd : List (String × List DataFrame)) (k : String)
    (df : DataFrame) : List (String × List DataFrame) :=
  match pd with
  | [] => [(k, [df])]
  | (k', v) :: t =>
    if k' = k then (k', v ++ [df]) :: t else (k', v) :: pushEntry t k df

/-- `platform_count`: number of keys. -/
def platform_count (c : PlatformDataCollector) : Nat := c.platform_data.length

/-- `total_dataframe_count`: total number of accumulated tables. -/
def total_dataframe_count (c : PlatformDataCollector) : Nat :=
  (c.platform_data.map (fun e => e.2.length)).sum

/-- The distinct category values of a table, in first-occurrence order
(`Series::unique`; the exact order is irrelevant to the claims). -/
def uniquePlatformValues (df : DataFrame) : List (Option String) :=
  (df.rows.map (fun r => getValue df.columns r platformCol)).dedup

/-- One iteration of the `for platform_value in platform_names.iter()`
loop of `group_dataframe_by_platform`: nulls are skipped with a warning,
otherwise the value is sanitized, the matching rows are selected, and a
non-empty subset is appended to the accumulator. -/
def ingestValue (df : DataFrame) (acc : PlatformDataCollector)
    (v : Option String) : PlatformDataCollector :=
  match v with
  | none => acc
  | some name =>
    let key := sanitize_platform_name name
    let sub := df.rows.filter
      (fun r => getValue df.columns r platformCol = some name)
    if sub.length > 0 then
      ⟨pushEntry acc.platform_data key ⟨df.columns, sub⟩,
       acc.allowed_platforms⟩
    else acc

/-- `group_dataframe_by_platform` (platform_collector.rs, lines 93-138):
for each distinct category value, run `ingestValue`. -/
def group_dataframe_by_platform (st : PlatformDataCollector) (df : DataFrame) :
    PlatformDataCollector :=
  (uniquePlatformValues df).foldl (ingestValue df) st

/-- `add_csv_data` (platform_collector.rs, lines 34-90) on an
already-parsed table (`csv_path` existence and CSV reading are I/O):
skip empty tables, require the category column, filter by the allowed
platforms, skip when nothing survives, otherwise group. -/
def add_csv_data (st : PlatformDataCollector) (df : DataFrame) :
    Except CsvProcessingError PlatformDataCollector :=
  if df.rows.length = 0 then .ok st
  else if !df.columns.contains platformCol then
    .error (.invalidPath "missing platform_name column")
  else
    match filterByPlatform df st.allowed_platforms with
    | .error e => .error e
    | .ok fdf =>
      if fdf.rows.length = 0 then .ok st
      else .ok (group_dataframe_by_platform st fdf)

/-- polars `DataFrame::vstack`: append the rows of `b` to `a`, requiring
identical schemas (a mismatch is an error, never a reconciliation). -/
def vstack (a b : DataFrame) : Except CsvProcessingError DataFrame :=
  if a.columns = b.columns then .ok ⟨a.columns, a.rows ++ b.rows⟩
  else .error .polarsError

/-- The `with_columns([col("*")])` round-trip in the consolidation loop:
re-selecting every column changes nothing. -/
def selectAll (df : DataFrame) : DataFrame := df

/-- The `for df in &dataframes[1..]` loop of `consolidate_platform_data`. -/
def vstackFold (acc : DataFrame) : List DataFrame → Except CsvProcessingError DataFrame
  | [] => .ok acc
  | df :: rest =>
    match vstack (selectAll acc) df with
    | .ok acc' => vstackFold acc' rest
    | .error e => .error e

/-- `consolidate_platform_data` (platform_collector.rs, lines 175-213). -/
def consolidate_platform_data (c : PlatformDataCollector) (platform : String) :
    Except CsvProcessingError DataFrame :=
  match lookupEntry c.platform_data platform with
  | none => .error (.invalidPath ("No data found for platform: " ++ platform))
  | some dataframes =>
    match dataframes with
    | [] => .error (.emptyDataFrame ("No DataFrames available for platform: " ++ platform))
    | [df] => .ok df
    | df0 :: rest => vstackFold df0 rest

/-- Append-only extension of a collector (the relation claimed to hold
across every successful ingest): every existing key keeps its table list
as a prefix, and the key count and total table count do not decrease. -/
def CollectorExtends (st st' : PlatformDataCollector) : Prop :=
  (∀ k v, lookupEntry st.platform_data k = some v →
    ∃ w, lookupEntry st'.platform_data k = some (v ++ w)) ∧
  platform_count st ≤ platform_count st' ∧
  total_dataframe_count st ≤ total_dataframe_count st'

/-- The two-row table of the specification's §8 scenario: header
`platform_name,x`, rows `Facebook,1` and `Unknown,2`. -/
def exampleDF : DataFrame :=
  ⟨["platform_name", "x"],
   [[some "Facebook", some "1"], [some "Unknown", some "2"]]⟩

/-! # Lemmas

## Character-level facts about lowercasing and the keep-class -/

theorem char_toNat_ofNat_of_lt {n : Nat} (h : n < 55296) :
    (Char.ofNat n).toNat = n := by
  unfold Char.ofNat
  rw [dif_pos (Or.inl h)]
  simp [Char.ofNatAux, Char.toNat, UInt32.toNat]

theorem char_eq_of_toNat_eq {a b : Char} (h : a.toNat = b.toNat) : a = b := by
  apply Char.ext
  exact UInt32.toNat.inj h

theorem toLower_toNat_cases (c : Char) :
    (65 ≤ c.toNat ∧ c.toNat ≤ 90 ∧ c.toLower.toNat = c.toNat + 32) ∨
      (¬(65 ≤ c.toNat ∧ c.toNat ≤ 90) ∧ c.toLower = c) := by
  unfold Char.toLower
  by_cases h : 65 ≤ c.toNat ∧ c.toNat ≤ 90
  · left
    refine ⟨h.1, h.2, ?_⟩
    rw [if_pos h]
    exact char_toNat_ofNat_of_lt (by omega)
  · right
    exact ⟨h, by rw [if_neg h]⟩

theorem lowKept_toNat {c : Char} (h : lowKept c = true) :
    (97 ≤ c.toNat ∧ c.toNat ≤ 122) ∨ (48 ≤ c.toNat ∧ c.toNat ≤ 57) ∨
      c.toNat = 95 := by
  simp only [lowKept, Bool.or_eq_true, Bool.and_eq_true, decide_eq_true_eq] at h
  tauto

theorem lowKept_ne_dash {c : Char} (h : lowKept c = true) : c ≠ '-' := by
  rintro rfl
  simp [lowKept] at h

theorem gChar_fix {c : Char} (h : lowKept c = true ∨ c = '-') : gChar c = c := by
  rcases h with h | rfl
  · have hn := lowKept_toNat h
    have hlow : c.toLower = c := by
      rcases toLower_toNat_cases c with ⟨h1, h2, _⟩ | ⟨_, h2⟩
      · omega
      · exact h2
    have hkept : keptByRegex c = true := by
      simp only [keptByRegex, Bool.or_eq_true, Bool.and_eq_true, decide_eq_true_eq]
      omega
    simp [gChar, hlow, hkept]
  · decide

theorem gChar_image (a : Char) : gChar a = '-' ∨ lowKept (gChar a) = true := by
  unfold gChar
  rcases toLower_toNat_cases a with ⟨h1, h2, h3⟩ | ⟨h1, h2⟩
  · right
    have hkept : keptByRegex a.toLower = true := by
      simp only [keptByRegex, Bool.or_eq_true, Bool.and_eq_true, decide_eq_true_eq]
      omega
    rw [if_pos hkept]
    simp only [lowKept, Bool.or_eq_true, Bool.and_eq_true, decide_eq_true_eq]
    omega
  · rw [h2]
    by_cases hkept : keptByRegex a = true
    · rw [if_pos hkept]
      simp only [keptByRegex, Bool.or_eq_true, Bool.and_eq_true,
        decide_eq_true_eq] at hkept
      by_cases h45 : a.toNat = 45
      · left
        exact char_eq_of_toNat_eq (by rw [h45]; rfl)
      · right
        simp only [lowKept, Bool.or_eq_true, Bool.and_eq_true, decide_eq_true_eq]
        omega
    · rw [if_neg hkept]
      left
      rfl

theorem replaceBad_lowerChars_eq_map (cs : List Char) :
    replaceBad (lowerChars cs) = cs.map gChar := by
  simp only [replaceBad, lowerChars, List.map_map]
  rfl

/-! ## List helpers for the sanitization pipeline -/

theorem map_fix {α : Type} (f : α → α) :
    ∀ l : List α, (∀ c ∈ l, f c = c) → l.map f = l
  | [], _ => rfl
  | a :: t, h => by
    rw [List.map_cons, h a (List.mem_cons_self a t),
      map_fix f t (fun c hc => h c (List.mem_cons_of_mem a hc))]

theorem splitOnP_mem (P : Char → Bool) :
    ∀ (l p : List Char), p ∈ l.splitOnP P → ∀ c ∈ p, c ∈ l ∧ P c = false
  | [], p, hp, c, hc => by
    rw [List.splitOnP_nil] at hp
    rcases List.mem_singleton.mp hp with rfl
    cases hc
  | a :: l, p, hp, c, hc => by
    rw [List.splitOnP_cons] at hp
    by_cases h : P a
    · rw [if_pos h] at hp
      rcases List.mem_cons.mp hp with rfl | hp'
      · cases hc
      · obtain ⟨h1, h2⟩ := splitOnP_mem P l p hp' c hc
        exact ⟨List.mem_cons_of_mem _ h1, h2⟩
    · rw [if_neg h] at hp
      cases hq : l.splitOnP P with
      | nil => exact absurd hq (List.splitOnP_ne_nil _ _)
      | cons q qs =>
        rw [hq, List.modifyHead] at hp
        rcases List.mem_cons.mp hp with rfl | hp'
        · rcases List.mem_cons.mp hc with rfl | hc'
          · exact ⟨List.mem_cons_self _ _, by simpa using h⟩
          · obtain ⟨h1, h2⟩ :=
              splitOnP_mem P l q (hq ▸ List.mem_cons_self q qs) c hc'
            exact ⟨List.mem_cons_of_mem _ h1, h2⟩
        · obtain ⟨h1, h2⟩ :=
            splitOnP_mem P l p (hq ▸ List.mem_cons_of_mem q hp') c hc
          exact ⟨List.mem_cons_of_mem _ h1, h2⟩

theorem joinDash_cons (p : List Char) (ps : List (List Char)) :
    ∃ t, joinDash (p :: ps) = p ++ t := by
  cases ps with
  | nil => exact ⟨[], by simp [joinDash]⟩
  | cons q rest => exact ⟨'-' :: joinDash (q :: rest), rfl⟩

theorem joinDash_cons_cons (p q : List Char) (rest : List (List Char)) :
    joinDash (p :: q :: rest) = p ++ '-' :: joinDash (q :: rest) := rfl

theorem mem_joinDash :
    ∀ (ps : List (List Char)) (c : Char), c ∈ joinDash ps →
      c = '-' ∨ ∃ p ∈ ps, c ∈ p
  | [], c, hc => by cases hc
  | [p], c, hc => by
    right
    exact ⟨p, List.mem_singleton_self p, hc⟩
  | p :: q :: rest, c, hc => by
    rw [joinDash_cons_cons] at hc
    rcases List.mem_append.mp hc with h | h
    · exact .inr ⟨p, List.mem_cons_self _ _, h⟩
    · rcases List.mem_cons.mp h with rfl | h'
      · exact .inl rfl
      · rcases mem_joinDash (q :: rest) c h' with h'' | ⟨r, hr, hcr⟩
        · exact .inl h''
        · exact .inr ⟨r, List.mem_cons_of_mem _ hr, hcr⟩

theorem joinDash_ne_nil {p : List Char} {ps : List (List Char)}
    (hp : p ≠ []) : joinDash (p :: ps) ≠ [] := by
  obtain ⟨t, ht⟩ := joinDash_cons p ps
  rw [ht]
  exact fun h => hp (List.append_eq_nil.mp h).1

theorem head?_joinDash (p : List Char) (ps : List (List Char)) (hp : p ≠ []) :
    ∃ c, c ∈ p ∧ (joinDash (p :: ps)).head? = some c := by
  obtain ⟨t, ht⟩ := joinDash_cons p ps
  cases p with
  | nil => exact absurd rfl hp
  | cons a p' =>
    exact ⟨a, List.mem_cons_self a p', by rw [ht]; rfl⟩

theorem getLast?_joinDash :
    ∀ ps : List (List Char), ps ≠ [] → (∀ p ∈ ps, p ≠ []) →
      ∃ p c, p ∈ ps ∧ c ∈ p ∧ (joinDash ps).getLast? = some c
  | [], h, _ => absurd rfl h
  | [p], _, hp => by
    have hpne : p ≠ [] := hp p (List.mem_singleton_self p)
    refine ⟨p, p.getLast hpne, List.mem_singleton_self p, List.getLast_mem hpne, ?_⟩
    simpa [joinDash] using List.getLast?_eq_getLast_of_ne_nil hpne
  | p :: q :: rest, _, hp => by
    obtain ⟨r, c, hr, hcr, hlast⟩ :=
      getLast?_joinDash (q :: rest) (List.cons_ne_nil q rest)
        (fun x hx => hp x (List.mem_cons_of_mem p hx))
    refine ⟨r, c, List.mem_cons_of_mem p hr, hcr, ?_⟩
    rw [joinDash_cons_cons]
    have hne : '-' :: joinDash (q :: rest) ≠ [] := List.cons_ne_nil _ _
    rw [List.getLast?_append_of_ne_nil _ hne]
    have hq : joinDash (q :: rest) ≠ [] :=
      joinDash_ne_nil (hp q (List.mem_cons_of_mem p (List.mem_cons_self q rest)))
    have : '-' :: joinDash (q :: rest) = ['-'] ++ joinDash (q :: rest) := rfl
    rw [this, List.getLast?_append_of_ne_nil _ hq]
    exact hlast

theorem dropWhile_dash_eq_self {l : List Char}
    (h : ∀ c, l.head? = some c → c ≠ '-') : l.dropWhile (· = '-') = l := by
  cases l with
  | nil => rfl
  | cons a t =>
    have ha : a ≠ '-' := h a rfl
    simp [List.dropWhile_cons, ha]

theorem trimDash_eq_self {l : List Char}
    (h1 : ∀ c, l.head? = some c → c ≠ '-')
    (h2 : ∀ c, l.getLast? = some c → c ≠ '-') : trimDash l = l := by
  unfold trimDash
  rw [dropWhile_dash_eq_self h1]
  rw [dropWhile_dash_eq_self (by
    intro c hc
    rw [List.head?_reverse] at hc
    exact h2 c hc)]
  exact List.reverse_reverse l

theorem mem_trimDash {l : List Char} {c : Char} (h : c ∈ trimDash l) : c ∈ l := by
  unfold trimDash at h
  rw [List.mem_reverse] at h
  have h' := (List.dropWhile_sublist (· = '-')).subset h
  rw [List.mem_reverse] at h'
  exact (List.dropWhile_sublist (· = '-')).subset h'

theorem splitDash_joinDash :
    ∀ ps : List (List Char), ps ≠ [] → (∀ p ∈ ps, ∀ c ∈ p, c ≠ '-') →
      splitDash (joinDash ps) = ps
  | [], h, _ => absurd rfl h
  | [p], _, hp => by
    show List.splitOnP (· == '-') p = [p]
    exact List.splitOnP_eq_single _ _ (by
      intro y hy hb
      exact hp p (List.mem_singleton_self p) y hy (by simpa using hb))
  | p :: q :: rest, _, hp => by
    show List.splitOnP (· == '-') (joinDash (p :: q :: rest)) = _
    rw [joinDash_cons_cons]
    rw [List.splitOnP_first _ _ (fun y hy => by
        simpa using hp p (List.mem_cons_self _ _) y hy) '-' (by simp)]
    have := splitDash_joinDash (q :: rest) (List.cons_ne_nil q rest)
      (fun x hx => hp x (List.mem_cons_of_mem p hx))
    rw [show List.splitOnP (· == '-') (joinDash (q :: rest)) =
      splitDash (joinDash (q :: rest)) from rfl, this]

/-! ## Shape and fixpoint of the sanitizer -/

theorem sanitizeL_shape (cs : List Char) :
    sanitizeL cs = "unknown".toList ∨
      ∃ ps : List (List Char), ps ≠ [] ∧
        (∀ p ∈ ps, p ≠ [] ∧ ∀ c ∈ p, lowKept c = true) ∧
        sanitizeL cs = joinDash ps := by
  by_cases hj :
      joinDash ((splitDash (trimDash (replaceBad (lowerChars cs)))).filter
        (· ≠ [])) = []
  · left
    simp only [sanitizeL]
    rw [if_pos hj]
  · right
    refine ⟨(splitDash (trimDash (replaceBad (lowerChars cs)))).filter (· ≠ []),
      ?_, ?_, ?_⟩
    · intro h
      exact hj (by rw [h]; rfl)
    · intro p hpf
      have hpm := List.mem_filter.mp hpf
      refine ⟨by simpa using hpm.2, ?_⟩
      intro c hc
      obtain ⟨hcx, hcd⟩ := splitOnP_mem (· == '-') _ p hpm.1 c hc
      have hcd' : c ≠ '-' := by simpa using hcd
      have hcr : c ∈ replaceBad (lowerChars cs) := mem_trimDash hcx
      rw [replaceBad_lowerChars_eq_map] at hcr
      obtain ⟨a, _, rfl⟩ := List.mem_map.mp hcr
      rcases gChar_image a with h | h
      · exact absurd h hcd'
      · exact h
    · simp only [sanitizeL]
      rw [if_neg hj]

theorem sanitizeL_fix {ps : List (List Char)} (hne : ps ≠ [])
    (hp : ∀ p ∈ ps, p ≠ [] ∧ ∀ c ∈ p, lowKept c = true) :
    sanitizeL (joinDash ps) = joinDash ps := by
  have hchars : ∀ c ∈ joinDash ps, gChar c = c := by
    intro c hc
    rcases mem_joinDash ps c hc with rfl | ⟨p, hpm, hcp⟩
    · exact gChar_fix (Or.inr rfl)
    · exact gChar_fix (Or.inl ((hp p hpm).2 c hcp))
  have hrb : replaceBad (lowerChars (joinDash ps)) = joinDash ps := by
    rw [replaceBad_lowerChars_eq_map]
    exact map_fix gChar _ hchars
  obtain ⟨p0, ps', rfl⟩ := List.exists_cons_of_ne_nil hne
  have hp0 : p0 ≠ [] := (hp p0 (List.mem_cons_self _ _)).1
  have htrim : trimDash (joinDash (p0 :: ps')) = joinDash (p0 :: ps') := by
    apply trimDash_eq_self
    · intro c hc
      obtain ⟨c', hc'm, hc'⟩ := head?_joinDash p0 ps' hp0
      rw [hc'] at hc
      cases Option.some.inj hc
      exact lowKept_ne_dash ((hp p0 (List.mem_cons_self _ _)).2 c hc'm)
    · intro c hc
      obtain ⟨p, c', hpm, hc'm, hlast⟩ :=
        getLast?_joinDash (p0 :: ps') (List.cons_ne_nil _ _)
          (fun x hx => (hp x hx).1)
      rw [hlast] at hc
      cases Option.some.inj hc
      exact lowKept_ne_dash ((hp p hpm).2 c hc'm)
  have hsplit : splitDash (joinDash (p0 :: ps')) = p0 :: ps' :=
    splitDash_joinDash _ (List.cons_ne_nil _ _)
      (fun p hpm c hc => lowKept_ne_dash ((hp p hpm).2 c hc))
  have hfilter : (p0 :: ps').filter (· ≠ []) = p0 :: ps' :=
    List.filter_eq_self.mpr (fun p hpm => by simpa using (hp p hpm).1)
  have hnil : joinDash (p0 :: ps') ≠ [] := joinDash_ne_nil hp0
  simp only [sanitizeL]
  rw [hrb, htrim, hsplit, hfilter, if_neg hnil]

theorem sanitizeL_unknown_fix : sanitizeL "unknown".toList = "unknown".toList := by
  decide

/-! ## Filtering -/

theorem rowAllowed_iff (cols A : List String) (r : Row) :
    rowAllowed cols A r = true ↔
      ∃ v, getValue cols r platformCol = some v ∧ v ∈ A := by
  unfold rowAllowed
  cases hv : getValue cols r platformCol with
  | none => simp
  | some v => simp [List.elem_iff]

theorem filterByPlatform_ok (df : DataFrame) (A : List String)
    (h : platformCol ∈ df.columns) :
    filterByPlatform df A =
      .ok ⟨df.columns, df.rows.filter (rowAllowed df.columns A)⟩ := by
  unfold filterByPlatform
  rw [if_pos (List.elem_iff.mpr h)]

/-! ## Consolidation -/

theorem vstackFold_ok :
    ∀ (rest : List DataFrame) (acc : DataFrame),
      (∀ df ∈ rest, df.columns = acc.columns) →
      vstackFold acc rest =
        .ok ⟨acc.columns, acc.rows ++ (rest.map DataFrame.rows).flatten⟩
  | [], acc, _ => by simp [vstackFold]
  | df :: rest, acc, h => by
    have hdf : acc.columns = df.columns := (h df (List.mem_cons_self df rest)).symm
    show (match vstack (selectAll acc) df with
      | .ok acc' => vstackFold acc' rest
      | .error e => .error e) = _
    unfold selectAll vstack
    rw [if_pos hdf]
    show vstackFold ⟨acc.columns, acc.rows ++ df.rows⟩ rest = _
    rw [vstackFold_ok rest ⟨acc.columns, acc.rows ++ df.rows⟩
      (fun d hd => h d (List.mem_cons_of_mem df hd))]
    simp

theorem vstackFold_err :
    ∀ (rest : List DataFrame) (acc : DataFrame),
      (∃ df ∈ rest, df.columns ≠ acc.columns) →
      ∃ e, vstackFold acc rest = .error e
  | [], _, h => by
    rcases h with ⟨df, hd, _⟩
    cases hd
  | df :: rest, acc, h => by
    by_cases hdf : acc.columns = df.columns
    · show ∃ e, (match vstack (selectAll acc) df with
        | .ok acc' => vstackFold acc' rest
        | .error e => .error e) = .error e
      unfold selectAll vstack
      rw [if_pos hdf]
      show ∃ e, vstackFold ⟨acc.columns, acc.rows ++ df.rows⟩ rest = .error e
      apply vstackFold_err rest
      rcases h with ⟨d, hd, hne⟩
      rcases List.mem_cons.mp hd with rfl | hd'
      · exact absurd hdf.symm hne
      · exact ⟨d, hd', hne⟩
    · refine ⟨.polarsError, ?_⟩
      show (match vstack (selectAll acc) df with
        | .ok acc' => vstackFold acc' rest
        | .error e => .error e) = .error .polarsError
      unfold selectAll vstack
      rw [if_neg hdf]

/-! ## The collector accumulator -/

theorem lookupEntry_pushEntry_self :
    ∀ (pd : List (String × List DataFrame)) (k : String) (df : DataFrame),
      lookupEntry (pushEntry pd k df) k =
        some (((lookupEntry pd k).getD []) ++ [df])
  | [], k, df => by simp [pushEntry, lookupEntry]
  | (k', v) :: t, k, df => by
    by_cases hk : k' = k
    · simp [pushEntry, lookupEntry, hk]
    · simp only [pushEntry, lookupEntry, if_neg hk]
      exact lookupEntry_pushEntry_self t k df

theorem lookupEntry_pushEntry_other :
    ∀ (pd : List (String × List DataFrame)) (k k' : String) (df : DataFrame),
      k ≠ k' →
      lookupEntry (pushEntry pd k df) k' = lookupEntry pd k'
  | [], k, k', df, h => by simp [pushEntry, lookupEntry, h]
  | (k0, v) :: t, k, k', df, h => by
    by_cases hk : k0 = k
    · have hk0 : k0 ≠ k' := by rw [hk]; exact h
      simp [pushEntry, lookupEntry, hk, hk0, h]
    · simp only [pushEntry, lookupEntry, if_neg hk]
      by_cases hk0 : k0 = k'
      · simp [hk0]
      · simp only [if_neg hk0]
        exact lookupEntry_pushEntry_other t k k' df h

theorem length_pushEntry :
    ∀ (pd : List (String × List DataFrame)) (k : String) (df : DataFrame),
      pd.length ≤ (pushEntry pd k df).length
  | [], k, df => by simp [pushEntry]
  | (k', v) :: t, k, df => by
    by_cases hk : k' = k
    · simp [pushEntry, hk]
    · simp only [pushEntry, if_neg hk, List.length_cons]
      exact Nat.succ_le_succ (length_pushEntry t k df)

theorem sum_pushEntry :
    ∀ (pd : List (String × List DataFrame)) (k : String) (df : DataFrame),
      ((pushEntry pd k df).map (fun e => e.2.length)).sum =
        (pd.map (fun e => e.2.length)).sum + 1
  | [], k, df => by simp [pushEntry]
  | (k', v) :: t, k, df => by
    by_cases hk : k' = k
    · simp [pushEntry, hk]
      omega
    · simp only [pushEntry, if_neg hk, List.map_cons, List.sum_cons,
        sum_pushEntry t k df]
      omega

theorem collectorExtends_refl (st : PlatformDataCollector) :
    CollectorExtends st st :=
  ⟨fun _ v h => ⟨[], by simpa using h⟩, le_refl _, le_refl _⟩

theorem collectorExtends_trans {a b c : PlatformDataCollector}
    (h1 : CollectorExtends a b) (h2 : CollectorExtends b c) :
    CollectorExtends a c := by
  obtain ⟨p1, q1, r1⟩ := h1
  obtain ⟨p2, q2, r2⟩ := h2
  refine ⟨?_, le_trans q1 q2, le_trans r1 r2⟩
  intro k v h
  obtain ⟨w, hw⟩ := p1 k v h
  obtain ⟨w', hw'⟩ := p2 k (v ++ w) hw
  exact ⟨w ++ w', by rw [hw', List.append_assoc]⟩

theorem ingestValue_extends (df : DataFrame) (acc : PlatformDataCollector)
    (v : Option String) : CollectorExtends acc (ingestValue df acc v) := by
  cases v with
  | none => exact collectorExtends_refl acc
  | some name =>
    simp only [ingestValue]
    by_cases hs : (df.rows.filter
        (fun r => getValue df.columns r platformCol = some name)).length > 0
    · rw [if_pos hs]
      refine ⟨?_, ?_, ?_⟩
      · intro k v0 h0
        by_cases hk : sanitize_platform_name name = k
        · refine ⟨[⟨df.columns, df.rows.filter
            (fun r => getValue df.columns r platformCol = some name)⟩], ?_⟩
          show lookupEntry (pushEntry acc.platform_data
            (sanitize_platform_name name) _) k = _
          rw [← hk, lookupEntry_pushEntry_self, hk, h0]
          rfl
        · refine ⟨[], ?_⟩
          show lookupEntry (pushEntry acc.platform_data
            (sanitize_platform_name name) _) k = _
          rw [lookupEntry_pushEntry_other _ _ _ _ hk, List.append_nil]
          exact h0
      · exact length_pushEntry _ _ _
      · show total_dataframe_count acc ≤
          (List.map (fun e => e.2.length) (pushEntry acc.platform_data _ _)).sum
        rw [sum_pushEntry]
        exact Nat.le_succ _
    · rw [if_neg hs]
      exact collectorExtends_refl acc

theorem foldl_ingest_extends (df : DataFrame) :
    ∀ (L : List (Option String)) (st : PlatformDataCollector),
      CollectorExtends st (L.foldl (ingestValue df) st)
  | [], st => collectorExtends_refl st
  | v :: L, st => by
    rw [List.foldl_cons]
    exact collectorExtends_trans (ingestValue_extends df st v)
      (foldl_ingest_extends df L (ingestValue df st v))

theorem group_extends (st : PlatformDataCollector) (df : DataFrame) :
    CollectorExtends st (group_dataframe_by_platform st df) :=
  foldl_ingest_extends df (uniquePlatformValues df) st

/-! # Claim theorems -/

set_option maxHeartbeats 1000000 in
/-- C1: the claim says `streamed_unzip` rejects entries whose declared
path escapes the destination (`..` components or absolute paths).  The
code has no such guard: extracting an archive whose entries are named
`"../evil.txt"` and `"/abs/evil.txt"` succeeds and materializes both
files outside the destination directory `dest`, returning them in the
result list. -/
theorem streamed_unzip_traversal_not_rejected :
    streamed_unzip noZipParse 1
        [⟨"../evil.txt", [0]⟩, ⟨"/abs/evil.txt", [0]⟩] ⟨false, ["dest"]⟩ =
      .ok [⟨false, ["dest", "..", "evil.txt"]⟩, ⟨true, ["abs", "evil.txt"]⟩] ∧
    escapesDest ⟨false, ["dest"]⟩ ⟨false, ["dest", "..", "evil.txt"]⟩ = true ∧
    escapesDest ⟨false, ["dest"]⟩ ⟨true, ["abs", "evil.txt"]⟩ = true := by
  refine ⟨?_, ?_, ?_⟩ <;> decide

theorem unzipGo_quine :
    ∀ (fuel : Nat) (b : List Nat) (dest : FsPath),
      unzipGo quineParse fuel [⟨"self.zip", b⟩] dest = .outOfFuel := by
  intro fuel
  induction fuel with
  | zero =>
    intro b dest
    rfl
  | succ n ih =>
    intro b dest
    show processEntries quineParse (unzipGo quineParse n)
        [⟨"self.zip", b⟩] dest = .outOfFuel
    have hslash : strEndsWith "self.zip" "/" = false := rfl
    have hzip : strEndsWith (lowerName "self.zip") ".zip" = true := rfl
    simp only [processEntries, hslash, Bool.false_eq_true, if_false, hzip,
      if_true, quineParse]
    rw [ih b _]

/-- C2: the claim says recursion into nested containers is bounded by an
explicit depth or total-bytes limit.  The code has no limit: on a
self-referential archive (an archive whose single entry `"self.zip"`
contains the archive's own bytes — `quineParse`) the recursion descends
one nesting level per step and exhausts every finite depth budget, for
any destination; i.e. the Rust recursion never terminates. -/
theorem streamed_unzip_no_recursion_bound :
    ∀ (fuel : Nat) (b : List Nat) (dest : FsPath),
      streamed_unzip quineParse fuel [⟨"self.zip", b⟩] dest = .outOfFuel :=
  fun fuel b dest => unzipGo_quine fuel b dest

set_option maxHeartbeats 1000000 in
/-- C3: the claim says every sanitized name is `"unknown"` or matches
`^[a-z0-9-]+$`.  The sanitization regex `[^a-zA-Z0-9\-_]` keeps
underscores, so `sanitize_platform_name "Test-Platform_123"` is
`"test-platform_123"`, which is neither `"unknown"` nor a match for the
spec's regex — and it also contradicts the repository's own unit test,
which asserts the result `"test-platform-123"`. -/
theorem sanitize_platform_name_underscore_bug :
    sanitize_platform_name "Test-Platform_123" = "test-platform_123" ∧
    matchesSpecRegex (sanitize_platform_name "Test-Platform_123") = false ∧
    sanitize_platform_name "Test-Platform_123" ≠ "unknown" ∧
    sanitize_platform_name "Test-Platform_123" ≠ "test-platform-123" := by
  refine ⟨?_, ?_, ?_, ?_⟩ <;> decide

/-- C9: `sanitize_platform_name` is idempotent: sanitizing an already
sanitized name changes nothing. -/
theorem sanitize_platform_name_idempotent (s : String) :
    sanitize_platform_name (sanitize_platform_name s) =
      sanitize_platform_name s := by
  have h : sanitizeL (sanitizeL s.toList) = sanitizeL s.toList := by
    rcases sanitizeL_shape s.toList with h | ⟨ps, hne, hp, h⟩
    · rw [h]
      exact sanitizeL_unknown_fix
    · rw [h]
      exact sanitizeL_fix hne hp
  show String.mk (sanitizeL (sanitizeL s.toList)) = String.mk (sanitizeL s.toList)
  exact congrArg String.mk h

set_option maxHeartbeats 1000000 in
/-- C4 counterexample: the claim says the name component of the S3 key is
the *sanitized* source name.  `convert_filter_and_upload_direct` uses the
raw file stem: for source file `"My File.csv"` the code uploads under
`"p/My File.parquet"`, while prefix + sanitized name + suffix would be
`"p/my-file.parquet"`. -/
theorem upload_key_not_sanitized :
    ((convert_filter_and_upload_direct ⟨["platform_name", "x"],
        [[some "Facebook", some "1"]]⟩ "My File.csv" "bkt" "p/").2.map
      (fun call => call.key) = ["p/My File.parquet"]) ∧
    specDestinationKey "p/" (file_stem "My File.csv") = "p/my-file.parquet" ∧
    ∃ call ∈ (convert_filter_and_upload_direct ⟨["platform_name", "x"],
        [[some "Facebook", some "1"]]⟩ "My File.csv" "bkt" "p/").2,
      call.key ≠ specDestinationKey "p/" (file_stem "My File.csv") := by
  refine ⟨?_, ?_, ?_⟩ <;> decide

/-- C4 (amended): every `put_object` call issued by
`convert_filter_and_upload_direct` uses the key
`prefix ++ file_stem ++ ".parquet"` with the *raw* (unsanitized) stem of
the source file name. -/
theorem upload_key_formula (df : DataFrame) (fileName bucket pfx : String) :
    ∀ call ∈ (convert_filter_and_upload_direct df fileName bucket pfx).2,
      call.key = pfx ++ file_stem fileName ++ ".parquet" := by
  intro call hc
  unfold convert_filter_and_upload_direct at hc
  cases hp : process_csv_to_parquet_bytes df ALLOWED_VLOPS with
  | error e =>
    rw [hp] at hc
    cases hc
  | ok o =>
    rw [hp] at hc
    cases o with
    | none => cases hc
    | some pr =>
      unfold fileStemOpt at hc
      by_cases hf : fileName = ""
      · rw [if_pos hf] at hc
        cases hc
      · rw [if_neg hf] at hc
        rcases List.mem_singleton.mp hc with rfl
        rfl

/-- C4 amended witness at the counterexample's input. -/
theorem upload_key_formula_witness :
    (⟨"bkt", "p/My File.parquet",
        ⟨["platform_name", "x"], [[some "Facebook", some "1"]]⟩⟩ : PutCall) ∈
      (convert_filter_and_upload_direct ⟨["platform_name", "x"],
        [[some "Facebook", some "1"]]⟩ "My File.csv" "bkt" "p/").2 ∧
    ("p/My File.parquet" : String) = "p/" ++ file_stem "My File.csv" ++ ".parquet" :=
  ⟨by decide, by
    have h := upload_key_formula ⟨["platform_name", "x"],
      [[some "Facebook", some "1"]]⟩ "My File.csv" "bkt" "p/"
      ⟨"bkt", "p/My File.parquet",
        ⟨["platform_name", "x"], [[some "Facebook", some "1"]]⟩⟩ (by decide)
    simpa using h⟩

/-- C5: the filter step keeps exactly the rows whose category-column value
is an exact, case-sensitive member of the allow-list `A`: the surviving
table has the rows of `df` that pass the membership test, its row count is
the number of such rows, and survivors keep their source order (the
surviving rows form a sublist of the source rows). -/
theorem filter_keeps_exactly_allowed (df : DataFrame) (A : List String)
    (h : platformCol ∈ df.columns) :
    ∃ fdf, filterByPlatform df A = .ok fdf ∧
      fdf.columns = df.columns ∧
      fdf.rows = df.rows.filter (rowAllowed df.columns A) ∧
      (∀ r : Row, rowAllowed df.columns A r = true ↔
        ∃ v, getValue df.columns r platformCol = some v ∧ v ∈ A) ∧
      fdf.rows.length = df.rows.countP (rowAllowed df.columns A) ∧
      fdf.rows.Sublist df.rows := by
  refine ⟨⟨df.columns, df.rows.filter (rowAllowed df.columns A)⟩,
    filterByPlatform_ok df A h, rfl, rfl, fun r => rowAllowed_iff _ _ r, ?_, ?_⟩
  · rw [List.countP_eq_length_filter]
  · exact List.filter_sublist _

/-- C5 witness on the §8 scenario table with allow-list `["Facebook"]`. -/
theorem filter_keeps_exactly_allowed_witness :
    platformCol ∈ exampleDF.columns ∧
    ∃ fdf, filterByPlatform exampleDF ["Facebook"] = .ok fdf ∧
      fdf.columns = exampleDF.columns ∧
      fdf.rows = exampleDF.rows.filter (rowAllowed exampleDF.columns ["Facebook"]) ∧
      (∀ r : Row, rowAllowed exampleDF.columns ["Facebook"] r = true ↔
        ∃ v, getValue exampleDF.columns r platformCol = some v ∧ v ∈ ["Facebook"]) ∧
      fdf.rows.length = exampleDF.rows.countP (rowAllowed exampleDF.columns ["Facebook"]) ∧
      fdf.rows.Sublist exampleDF.rows :=
  ⟨by decide, filter_keeps_exactly_allowed exampleDF ["Facebook"] (by decide)⟩

/-- C6: when no row survives filtering, `process_csv_to_parquet_bytes`
returns the explicit no-rows outcome `Ok(None)` (not an error), no
artifact is produced, and `convert_filter_and_upload_direct` issues no
`put_object` call and also returns `Ok(None)`. -/
theorem no_rows_no_publish (df : DataFrame) (fileName bucket pfx : String)
    (hcol : platformCol ∈ df.columns)
    (h : ∀ r ∈ df.rows, rowAllowed df.columns ALLOWED_VLOPS r = false) :
    process_csv_to_parquet_bytes df ALLOWED_VLOPS = .ok none ∧
    convert_filter_and_upload_direct df fileName bucket pfx = (.ok none, []) := by
  have hfil : df.rows.filter (rowAllowed df.columns ALLOWED_VLOPS) = [] := by
    rw [List.filter_eq_nil_iff]
    intro r hr
    simp [h r hr]
  have hproc : process_csv_to_parquet_bytes df ALLOWED_VLOPS = .ok none := by
    unfold process_csv_to_parquet_bytes
    rw [filterByPlatform_ok df ALLOWED_VLOPS hcol]
    simp [hfil]
  refine ⟨hproc, ?_⟩
  unfold convert_filter_and_upload_direct
  rw [hproc]

/-- C6 witness: one row with category `"Nope"`, outside the allow-list. -/
theorem no_rows_no_publish_witness :
    platformCol ∈ (DataFrame.mk ["platform_name", "x"]
      [[some "Nope", some "1"]]).columns ∧
    (∀ r ∈ (DataFrame.mk ["platform_name", "x"] [[some "Nope", some "1"]]).rows,
      rowAllowed ["platform_name", "x"] ALLOWED_VLOPS r = false) ∧
    (process_csv_to_parquet_bytes
        ⟨["platform_name", "x"], [[some "Nope", some "1"]]⟩ ALLOWED_VLOPS = .ok none ∧
      convert_filter_and_upload_direct ⟨["platform_name", "x"],
        [[some "Nope", some "1"]]⟩ "a.csv" "bkt" "p/" = (.ok none, [])) :=
  ⟨by decide, by decide,
    no_rows_no_publish ⟨["platform_name", "x"], [[some "Nope", some "1"]]⟩
      "a.csv" "bkt" "p/" (by decide) (by decide)⟩

/-- C7: when exactly one table was accumulated for a key,
`consolidate_platform_data` returns that very table (same schema, same
rows, same order). -/
theorem consolidate_single_table (c : PlatformDataCollector) (platform : String)
    (df : DataFrame) (h : lookupEntry c.platform_data platform = some [df]) :
    consolidate_platform_data c platform = .ok df := by
  unfold consolidate_platform_data
  rw [h]

/-- C7 witness: a collector with one accumulated table. -/
theorem consolidate_single_table_witness :
    lookupEntry [("facebook", [exampleDF])] "facebook" = some [exampleDF] ∧
    consolidate_platform_data ⟨[("facebook", [exampleDF])], ["Facebook"]⟩
      "facebook" = .ok exampleDF :=
  ⟨by decide,
    consolidate_single_table ⟨[("facebook", [exampleDF])], ["Facebook"]⟩
      "facebook" exampleDF (by decide)⟩

/-- C8: with at least two accumulated tables for a key: identical schemas
give the concatenation in accumulation order (row count the sum of the
per-table counts, per-source blocks kept in order), while any schema
mismatch makes consolidation fail with an error. -/
theorem consolidate_concat_or_error (c : PlatformDataCollector)
    (platform : String) (df0 r1 : DataFrame) (rest : List DataFrame)
    (h : lookupEntry c.platform_data platform = some (df0 :: r1 :: rest)) :
    ((∀ df ∈ df0 :: r1 :: rest, df.columns = df0.columns) →
      consolidate_platform_data c platform =
        .ok ⟨df0.columns, ((df0 :: r1 :: rest).map DataFrame.rows).flatten⟩ ∧
      (((df0 :: r1 :: rest).map DataFrame.rows).flatten).length =
        ((df0 :: r1 :: rest).map (fun df => df.rows.length)).sum) ∧
    ((∃ a ∈ df0 :: r1 :: rest, ∃ b ∈ df0 :: r1 :: rest, a.columns ≠ b.columns) →
      ∃ e, consolidate_platform_data c platform = .error e) := by
  have hcons : consolidate_platform_data c platform = vstackFold df0 (r1 :: rest) := by
    unfold consolidate_platform_data
    rw [h]
  constructor
  · intro hall
    constructor
    · rw [hcons, vstackFold_ok (r1 :: rest) df0
        (fun d hd => hall d (List.mem_cons_of_mem df0 hd))]
      simp
    · rw [List.length_flatten, List.map_map]
      rfl
  · rintro ⟨a, ha, b, hb, hab⟩
    rw [hcons]
    apply vstackFold_err
    by_cases hac : a.columns = df0.columns
    · have hbc : b.columns ≠ df0.columns := fun hbc => hab (by rw [hac, hbc])
      have hbm : b ∈ r1 :: rest := by
        rcases List.mem_cons.mp hb with rfl | hb'
        · exact absurd rfl hbc
        · exact hb'
      exact ⟨b, hbm, hbc⟩
    · have ham : a ∈ r1 :: rest := by
        rcases List.mem_cons.mp ha with rfl | ha'
        · exact absurd rfl hac
        · exact ha'
      exact ⟨a, ham, hac⟩

/-- C8 witness: two same-schema tables under one key. -/
theorem consolidate_concat_or_error_witness :
    lookupEntry [("k", [(⟨["a"], [[some "1"]]⟩ : DataFrame),
        (⟨["a"], [[some "2"]]⟩ : DataFrame)])] "k" =
      some [⟨["a"], [[some "1"]]⟩, ⟨["a"], [[some "2"]]⟩] ∧
    (((∀ df ∈ [(⟨["a"], [[some "1"]]⟩ : DataFrame), ⟨["a"], [[some "2"]]⟩],
        df.columns = (⟨["a"], [[some "1"]]⟩ : DataFrame).columns) →
      consolidate_platform_data
          ⟨[("k", [⟨["a"], [[some "1"]]⟩, ⟨["a"], [[some "2"]]⟩])], []⟩ "k" =
        .ok ⟨(⟨["a"], [[some "1"]]⟩ : DataFrame).columns,
          (([(⟨["a"], [[some "1"]]⟩ : DataFrame),
            ⟨["a"], [[some "2"]]⟩].map DataFrame.rows)).flatten⟩ ∧
      ((([(⟨["a"], [[some "1"]]⟩ : DataFrame),
          ⟨["a"], [[some "2"]]⟩].map DataFrame.rows)).flatten).length =
        ([(⟨["a"], [[some "1"]]⟩ : DataFrame),
          ⟨["a"], [[some "2"]]⟩].map (fun df => df.rows.length)).sum) ∧
    ((∃ a ∈ [(⟨["a"], [[some "1"]]⟩ : DataFrame), ⟨["a"], [[some "2"]]⟩],
        ∃ b ∈ [(⟨["a"], [[some "1"]]⟩ : DataFrame), ⟨["a"], [[some "2"]]⟩],
        a.columns ≠ b.columns) →
      ∃ e, consolidate_platform_data
          ⟨[("k", [⟨["a"], [[some "1"]]⟩, ⟨["a"], [[some "2"]]⟩])], []⟩ "k" =
        .error e)) :=
  ⟨by decide,
    consolidate_concat_or_error
      ⟨[("k", [⟨["a"], [[some "1"]]⟩, ⟨["a"], [[some "2"]]⟩])], []⟩ "k"
      ⟨["a"], [[some "1"]]⟩ ⟨["a"], [[some "2"]]⟩ [] (by decide)⟩

/-- C10: a successful `add_csv_data` call only appends to the
accumulator: every key present before keeps its table list as a prefix of
its new list, and neither the key count (`platform_count`) nor the total
table count (`total_dataframe_count`) decreases. -/
theorem add_csv_data_append_only (st : PlatformDataCollector) (df : DataFrame)
    (st' : PlatformDataCollector) (h : add_csv_data st df = .ok st') :
    CollectorExtends st st' := by
  unfold add_csv_data at h
  by_cases h0 : df.rows.length = 0
  · rw [if_pos h0] at h
    obtain rfl : st = st' := by
      simpa using h
    exact collectorExtends_refl st
  · rw [if_neg h0] at h
    cases hcol : df.columns.contains platformCol with
    | false =>
      rw [hcol] at h
      simp at h
    | true =>
      rw [hcol] at h
      simp only [Bool.not_true, Bool.false_eq_true, if_false] at h
      cases hfp : filterByPlatform df st.allowed_platforms with
      | error e =>
        rw [hfp] at h
        exact Except.noConfusion h
      | ok fdf =>
        rw [hfp] at h
        have h' : (if fdf.rows.length = 0 then Except.ok st
            else Except.ok (group_dataframe_by_platform st fdf)) =
            Except.ok st' := h
        by_cases h2 : fdf.rows.length = 0
        · rw [if_pos h2] at h'
          obtain rfl : st = st' := by
            simpa using h'
          exact collectorExtends_refl st
        · rw [if_neg h2] at h'
          obtain rfl : group_dataframe_by_platform st fdf = st' := by
            simpa using h'
          exact group_extends st fdf

set_option maxHeartbeats 1000000 in
/-- C10 witness: ingesting the §8 scenario table into a fresh collector. -/
theorem add_csv_data_append_only_witness :
    add_csv_data (PlatformDataCollector.new ["Facebook"]) exampleDF =
      .ok ⟨[("facebook",
        [⟨["platform_name", "x"], [[some "Facebook", some "1"]]⟩])],
        ["Facebook"]⟩ ∧
    CollectorExtends (PlatformDataCollector.new ["Facebook"])
      ⟨[("facebook",
        [⟨["platform_name", "x"], [[some "Facebook", some "1"]]⟩])],
        ["Facebook"]⟩ :=
  ⟨by rfl,
    add_csv_data_append_only (PlatformDataCollector.new ["Facebook"]) exampleDF
      _ (by rfl)⟩

end DataLander
